import Mathlib

/-!
Shallow embedding of the hypo relay backend (Rust sources under
src/backend/src), covering the session registry, the frame codec, the
envelope validator, the control plane and the websocket message handler,
together with proofs of the specification claims about them.
-/

namespace Hypo

/-! ## Bytes -/

/-- A byte value. -/
abbrev Byte := Fin 256

/-- A binary frame is a byte sequence (Rust `Vec<u8>`). -/
abbrev Frame := List Byte

/-- Truncate a natural number into one byte (wrapping, as Rust casts do). -/
def byte (n : Nat) : Byte := ⟨n % 256, Nat.mod_lt _ (by omega)⟩

/-! ## Base64 (model of the `base64` crate engines used by the backend)

`BASE64` is `general_purpose::STANDARD`: canonical padding required,
non-zero trailing bits rejected.  `BASE64_NO_PAD` is
`general_purpose::STANDARD_NO_PAD`: padding characters rejected,
non-zero trailing bits rejected. -/

/-- Index of a character in the standard base64 alphabet. -/
def b64CharIndex (c : Char) : Option Nat :=
  if 'A' ≤ c ∧ c ≤ 'Z' then some (c.toNat - 65)
  else if 'a' ≤ c ∧ c ≤ 'z' then some (c.toNat - 97 + 26)
  else if '0' ≤ c ∧ c ≤ '9' then some (c.toNat - 48 + 52)
  else if c = '+' then some 62
  else if c = '/' then some 63
  else none

/-- Recombine 6-bit groups into bytes.  A final group of one sextet is
invalid; final groups of two or three sextets must have zero trailing
bits (the engines are built without `decode_allow_trailing_bits`). -/
def decodeSextets : List Nat → Option (List Nat)
  | [] => some []
  | [_] => none
  | [a, b] => if b % 16 = 0 then some [a * 4 + b / 16] else none
  | [a, b, c] =>
      if c % 4 = 0 then some [a * 4 + b / 16, b % 16 * 16 + c / 4] else none
  | a :: b :: c :: d :: rest =>
      (decodeSextets rest).map
        (fun tail =>
          (a * 4 + b / 16) :: (b % 16 * 16 + c / 4) :: (c % 4 * 64 + d) :: tail)

/-- Model of `STANDARD_NO_PAD.decode`: every character must be in the
alphabet (in particular no pad characters). -/
def base64DecodeNoPad (s : String) : Option (List Nat) :=
  (s.toList.mapM b64CharIndex).bind decodeSextets

/-- Model of `STANDARD.decode`: canonical padding — total length a
multiple of four, at most two trailing pad characters, none elsewhere. -/
def base64DecodePadded (s : String) : Option (List Nat) :=
  let cs := s.toList
  if cs.length % 4 ≠ 0 then none
  else
    let pad := (cs.reverse.takeWhile (fun c => c = '=')).length
    if 2 < pad then none
    else
      let body := cs.take (cs.length - pad)
      if body.contains '=' then none
      else (body.mapM b64CharIndex).bind decodeSextets

/-! ## Frame codec (src/backend/src/handlers/websocket.rs) -/

/-- Declared payload length of a frame: its first four bytes read as a
big-endian u32 (zero when the frame has fewer than four bytes). -/
def declaredLen : List Byte → Nat
  | b0 :: b1 :: b2 :: b3 :: _ =>
      b0.val * 16777216 + b1.val * 65536 + b2.val * 256 + b3.val
  | _ => 0

/-- Is a byte a UTF-8 continuation byte (0x80–0xBF)? -/
def isCont (b : Byte) : Bool := decide (128 ≤ b.val ∧ b.val ≤ 191)

/-- Strict UTF-8 validity of a byte sequence, as checked by
`std::str::from_utf8` (rejects overlong forms, surrogates and
code points above U+10FFFF). -/
def validUtf8 : List Byte → Bool
  | [] => true
  | b :: rest =>
    if b.val ≤ 127 then validUtf8 rest
    else if 194 ≤ b.val ∧ b.val ≤ 223 then
      match rest with
      | c1 :: rest2 => isCont c1 && validUtf8 rest2
      | [] => false
    else if b.val = 224 then
      match rest with
      | c1 :: c2 :: rest2 =>
          decide (160 ≤ c1.val ∧ c1.val ≤ 191) && isCont c2 && validUtf8 rest2
      | _ => false
    else if (225 ≤ b.val ∧ b.val ≤ 236) ∨ b.val = 238 ∨ b.val = 239 then
      match rest with
      | c1 :: c2 :: rest2 => isCont c1 && isCont c2 && validUtf8 rest2
      | _ => false
    else if b.val = 237 then
      match rest with
      | c1 :: c2 :: rest2 =>
          decide (128 ≤ c1.val ∧ c1.val ≤ 159) && isCont c2 && validUtf8 rest2
      | _ => false
    else if b.val = 240 then
      match rest with
      | c1 :: c2 :: c3 :: rest2 =>
          decide (144 ≤ c1.val ∧ c1.val ≤ 191) && isCont c2 && isCont c3 &&
            validUtf8 rest2
      | _ => false
    else if 241 ≤ b.val ∧ b.val ≤ 243 then
      match rest with
      | c1 :: c2 :: c3 :: rest2 =>
          isCont c1 && isCont c2 && isCont c3 && validUtf8 rest2
      | _ => false
    else if b.val = 244 then
      match rest with
      | c1 :: c2 :: c3 :: rest2 =>
          decide (128 ≤ c1.val ∧ c1.val ≤ 143) && isCont c2 && isCont c3 &&
            validUtf8 rest2
      | _ => false
    else false

/-- `decode_binary_frame` (websocket.rs lines 283–305): strict decoder
for 4-byte big-endian length-prefixed frames.  On success it returns the
payload, i.e. the UTF-8 bytes of the returned Rust `String`. -/
def decode_binary_frame (data : List Byte) : Except String (List Byte) :=
  match data with
  | b0 :: b1 :: b2 :: b3 :: _ =>
    let length := b0.val * 16777216 + b1.val * 65536 + b2.val * 256 + b3.val
    if data.length < 4 + length then .error ("frame truncated")
    else if data.length ≠ 4 + length then .error ("frame has trailing bytes")
    else
      let jsonBytes := (data.drop 4).take length
      if validUtf8 jsonBytes then .ok jsonBytes
      else .error ("invalid UTF-8 in JSON payload")
  | _ => .error ("frame too short")

/-- `encode_binary_frame` (websocket.rs lines 332–340, also
session_manager.rs lines 140–148), applied to the UTF-8 bytes of the
JSON string.  The length is cast to u32 as in the source. -/
def encode_binary_frame (jsonBytes : List Byte) : List Byte :=
  let length := jsonBytes.length % 4294967296
  byte (length / 16777216) :: byte (length / 65536 % 256) ::
    byte (length / 256 % 256) :: byte (length % 256) :: jsonBytes

/-! ## Association lists

The Rust `HashMap`s are modelled as association lists with unique keys;
insertion removes any previous binding and appends the new one. -/

/-- Lookup in an association list (model of `HashMap::get`). -/
def alookup (k : String) : List (String × β) → Option β
  | [] => none
  | (k', v) :: rest => if k' = k then some v else alookup k rest

/-- Remove a binding (model of `HashMap::remove`). -/
def aerase (k : String) : List (String × β) → List (String × β)
  | [] => []
  | (k', v) :: rest =>
      if k' = k then aerase k rest else (k', v) :: aerase k rest

/-- Update the value bound to a key in place, if present
(model of `HashMap::get_mut`). -/
def aupdate (k : String) (f : β → β) : List (String × β) → List (String × β)
  | [] => []
  | (k', v) :: rest =>
      if k' = k then (k', f v) :: aupdate k f rest
      else (k', v) :: aupdate k f rest

/-- Insert-or-replace (model of `HashMap::insert`). -/
def ainsert (k : String) (v : β) (l : List (String × β)) :
    List (String × β) :=
  aerase k l ++ [(k, v)]

/-- Boolean membership in a string list (model of `HashSet::contains` /
`Vec::contains` over the strings collected into the set). -/
def memb (a : String) : List String → Bool
  | [] => false
  | x :: rest => if x = a then true else memb a rest

/-! ## Session registry (src/backend/src/services/session_manager.rs) -/

/-- The send error type (`SessionError`); the string carried by
`SendError` is dropped. -/
inductive SessionError where
  | deviceNotConnected
  | sendError
  | invalidMessage
deriving DecidableEq

/-- The receiving half of one unbounded MPSC channel: `closed` is true
once the receiver has been dropped, `queue` is the list of frames
enqueued and not yet drained. -/
structure Channel where
  closed : Bool
  queue : List Frame
deriving DecidableEq

/-- One registry entry (`SessionEntry`): the outbound channel and the
session token.  The `lastSeen` field is modelled from the spec:
`last_seen — timestamp updated on each valid inbound clipboard/control
frame` (the field is absent from the `SessionEntry` in src/, whose
`touch` caller sites are in websocket.rs). -/
structure SessionEntry where
  channel : Channel
  token : Nat
  lastSeen : Nat
deriving DecidableEq

/-- The whole registry (`SessionManager`): the device map plus the
atomic `next_token` counter.  The counter is modelled as an unbounded
natural; every read of the stored u64 value is taken modulo `2 ^ 64`,
which is observationally identical to the wrapping `fetch_add`. -/
structure SessionsState where
  entries : List (String × SessionEntry)
  nextToken : Nat
deriving DecidableEq

/-- The empty registry (`SessionManager::new`). -/
def initState : SessionsState := ⟨[], 0⟩

/-- `SessionManager::register`: mint a token from the atomic counter,
create a fresh open channel, insert the entry (replacing any previous
entry for the same device).  Returns the minted token together with the
new state; `now` stamps the spec-modelled `last_seen` field. -/
def SessionsState.register (st : SessionsState) (d : String) (now : Nat) :
    Nat × SessionsState :=
  let token := st.nextToken % 18446744073709551616
  (token,
    { entries := ainsert d ⟨⟨false, []⟩, token, now⟩ st.entries,
      nextToken := st.nextToken + 1 })

/-- `SessionManager::unregister_with_token`: remove the entry only when
the registered token matches; return whether it was removed. -/
def SessionsState.unregisterWithToken (st : SessionsState) (d : String)
    (t : Nat) : Bool × SessionsState :=
  let shouldRemove :=
    match alookup d st.entries with
    | some entry => decide (entry.token = t)
    | none => false
  if shouldRemove then (true, { st with entries := aerase d st.entries })
  else (false, st)

/-- `SessionManager::send_binary`: look up the entry; absent devices
yield `DeviceNotConnected`; a closed channel yields `SendError`;
otherwise the frame is enqueued. -/
def SessionsState.sendBinary (st : SessionsState) (d : String) (f : Frame) :
    Except SessionError Unit × SessionsState :=
  match alookup d st.entries with
  | none => (.error .deviceNotConnected, st)
  | some entry =>
      if entry.channel.closed then (.error .sendError, st)
      else
        (.ok (),
          { st with
            entries := aupdate d
              (fun e => { e with channel := ⟨e.channel.closed, e.channel.queue ++ [f]⟩ })
              st.entries })

/-- `SessionManager::broadcast_except_binary`: enqueue a clone of the
frame on every entry whose key differs from the sender; per-recipient
send failures (closed channels) are ignored. -/
def SessionsState.broadcastExceptBinary (st : SessionsState) (sender : String)
    (f : Frame) : SessionsState :=
  { st with
    entries := st.entries.map
      (fun p =>
        (p.1,
          if p.1 = sender then p.2
          else if p.2.channel.closed then p.2
          else { p.2 with channel := ⟨p.2.channel.closed, p.2.channel.queue ++ [f]⟩ })) }

/-- `SessionManager::get_connected_devices`. -/
def SessionsState.getConnectedDevices (st : SessionsState) : List String :=
  st.entries.map Prod.fst

/-- `SessionManager::get_active_count`. -/
def SessionsState.getActiveCount (st : SessionsState) : Nat :=
  st.entries.length

/-- Modelled from the spec: `touch(device_id). Update last_seen to now.
Non-fatal if absent.`  The method is called from websocket.rs but its
definition is missing from the session manager in src/. -/
def SessionsState.touch (st : SessionsState) (d : String) (now : Nat) :
    SessionsState :=
  { st with entries := aupdate d (fun e => { e with lastSeen := now }) st.entries }

/-- One element of the connected-device listing.  Modelled from the
spec: `connected_devices_info() → [{device_id, last_seen}]` (the
structure is absent from src/; only its consumers in peers.rs and
websocket.rs are present). -/
structure ConnectedDeviceInfo where
  device_id : String
  last_seen : Nat
deriving DecidableEq

/-- Modelled from the spec: `connected_devices_info()`, the listing
consumed by the /peers handler and `query_connected_peers`. -/
def SessionsState.getConnectedDevicesInfo (st : SessionsState) :
    List ConnectedDeviceInfo :=
  st.entries.map (fun p => ⟨p.1, p.2.lastSeen⟩)

/-! ## Registration / teardown traces -/

/-- One registry operation of the kind quantified over by the registry
invariants: a registration (with its timestamp) or a token-guarded
teardown. -/
inductive RegOp where
  | register (d : String) (now : Nat)
  | unregisterTok (d : String) (t : Nat)

/-- Apply one operation to the registry. -/
def stepOp (st : SessionsState) : RegOp → SessionsState
  | .register d now => (st.register d now).2
  | .unregisterTok d t => (st.unregisterWithToken d t).2

/-- Run a sequence of operations. -/
def runOps (st : SessionsState) : List RegOp → SessionsState
  | [] => st
  | op :: rest => runOps (stepOp st op) rest

/-- The tokens minted while running a sequence of operations, tagged
with the device they were minted for, in call order. -/
def traceMinted (st : SessionsState) : List RegOp → List (String × Nat)
  | [] => []
  | .register d now :: rest =>
      (d, (st.register d now).1) :: traceMinted (stepOp st (.register d now)) rest
  | .unregisterTok d t :: rest =>
      traceMinted (stepOp st (.unregisterTok d t)) rest

/-- Number of registrations in a sequence of operations. -/
def countRegisters : List RegOp → Nat
  | [] => 0
  | .register _ _ :: rest => countRegisters rest + 1
  | .unregisterTok _ _ :: rest => countRegisters rest

/-- The tokens in a minting trace that belong to one device. -/
def mintedBy (d : String) (l : List (String × Nat)) : List Nat :=
  l.filterMap (fun p => if p.1 = d then some p.2 else none)

/-- The tokens ever minted for one device during a run from the initial
state, in call order. -/
def mintedFor (d : String) (ops : List RegOp) : List Nat :=
  mintedBy d (traceMinted initState ops)

/-! ## JSON values (model of `serde_json::Value`)

Objects model `serde_json::Map` after parsing: a list of key/value
pairs with unique keys (lookup takes the first match).  Numbers are
modelled as integers; no claim involves numeric payload fields. -/

inductive Json where
  | null
  | bool (b : Bool)
  | num (n : Int)
  | str (s : String)
  | arr (elems : List Json)
  | obj (fields : List (String × Json))

/-- `Value::get(key)`: field lookup, `none` on non-objects. -/
def Json.get (j : Json) (k : String) : Option Json :=
  match j with
  | .obj fields => alookup k fields
  | _ => none

/-- `Value::as_str()`. -/
def Json.asStr : Json → Option String
  | .str s => some s
  | _ => none

/-! ### Serialization (model of `serde_json::to_string`)

`serde_json::Map` is a `BTreeMap`, so objects serialize with their keys
in lexicographic order. -/

/-- Lowercase hexadecimal digit. -/
def hexDigit (n : Nat) : Char :=
  if n < 10 then Char.ofNat (48 + n) else Char.ofNat (87 + n)

/-- Escape one character inside a JSON string literal, as serde_json
does: quote, backslash and the named control escapes, `\u00XX` for the
remaining control characters. -/
def escapeChar (c : Char) : String :=
  if c = '"' then "\\\""
  else if c = '\\' then "\\\\"
  else if c = Char.ofNat 8 then "\\b"
  else if c = Char.ofNat 9 then "\\t"
  else if c = Char.ofNat 10 then "\\n"
  else if c = Char.ofNat 12 then "\\f"
  else if c = Char.ofNat 13 then "\\r"
  else if c.toNat < 32 then
    String.mk ['\\', 'u', '0', '0', hexDigit (c.toNat / 16), hexDigit (c.toNat % 16)]
  else String.singleton c

/-- Serialize a string with quotes and escapes. -/
def escapeString (s : String) : String :=
  "\"" ++ String.join (s.toList.map escapeChar) ++ "\""

/-- Insert a key-tagged rendered field into a list sorted by key. -/
def insertSorted (p : String × String) :
    List (String × String) → List (String × String)
  | [] => [p]
  | q :: rest => if p.1 ≤ q.1 then p :: q :: rest else q :: insertSorted p rest

/-- Sort rendered fields by key (the `BTreeMap` iteration order). -/
def sortFields : List (String × String) → List (String × String)
  | [] => []
  | p :: rest => insertSorted p (sortFields rest)

/-- Compact JSON rendering, keys of every object in lexicographic
order, as `serde_json::to_string` produces for the default `Map`. -/
def Json.render : Json → String
  | .null => "null"
  | .bool true => "true"
  | .bool false => "false"
  | .num n => toString n
  | .str s => escapeString s
  | .arr elems =>
      "[" ++ ",".intercalate (elems.attach.map (fun e => Json.render e.1)) ++ "]"
  | .obj fields =>
      "\x7b" ++
        ",".intercalate
          ((sortFields (fields.attach.map (fun p => (p.1.1, Json.render p.1.2)))).map
            (fun q => escapeString q.1 ++ ":" ++ q.2)) ++
        "\x7d"
decreasing_by
  · have h := List.sizeOf_lt_of_mem e.2
    simp only [Json.arr.sizeOf_spec]
    omega
  · have h := List.sizeOf_lt_of_mem p.2
    obtain ⟨⟨k, v⟩, hp⟩ := p
    simp only [Prod.mk.sizeOf_spec] at h
    simp only [Json.obj.sizeOf_spec]
    omega

/-- UTF-8 encoding of one character. -/
def utf8EncodeChar (c : Char) : List Byte :=
  let n := c.toNat
  if n < 128 then [byte n]
  else if n < 2048 then [byte (192 + n / 64), byte (128 + n % 64)]
  else if n < 65536 then
    [byte (224 + n / 4096), byte (128 + n / 64 % 64), byte (128 + n % 64)]
  else
    [byte (240 + n / 262144), byte (128 + n / 4096 % 64),
      byte (128 + n / 64 % 64), byte (128 + n % 64)]

/-- The UTF-8 bytes of a string (a Rust `String`'s byte content). -/
def strBytes (s : String) : List Byte :=
  (s.toList.map utf8EncodeChar).flatten

/-- The byte content of the serialized form of a JSON value. -/
def Json.renderBytes (j : Json) : List Byte := strBytes j.render

/-! ## String normalization helpers

Models of `str::to_lowercase`, `str::trim` and `str::split(',')` as
used on device identifiers.  Device ids are ASCII in this protocol;
lowercasing and whitespace are modelled on the ASCII range. -/

/-- ASCII lowercasing of one character. -/
def lowerChar (c : Char) : Char :=
  if 'A' ≤ c ∧ c ≤ 'Z' then Char.ofNat (c.toNat + 32) else c

/-- `str::to_lowercase` (ASCII model). -/
def lowerStr (s : String) : String := String.mk (s.toList.map lowerChar)

/-- Whitespace recognizer for `str::trim` (ASCII model). -/
def isWs (c : Char) : Bool :=
  decide (c = ' ' ∨ c = Char.ofNat 9 ∨ c = Char.ofNat 10 ∨ c = Char.ofNat 13)

/-- `str::trim` (ASCII model). -/
def trimStr (s : String) : String :=
  String.mk (((s.toList.dropWhile isWs).reverse.dropWhile isWs).reverse)

/-- Split a character list at commas. -/
def splitComma : List Char → List (List Char)
  | [] => [[]]
  | c :: rest =>
      let groups := splitComma rest
      if c = ',' then [] :: groups
      else
        match groups with
        | g :: gs => (c :: g) :: gs
        | [] => [[c]]

/-- `str::split(',')` collected into a list. -/
def splitCommaStr (s : String) : List String :=
  (splitComma s.toList).map String.mk

/-! ## Envelope validation (websocket.rs) -/

/-- The error string chosen by `decode_base64_with_fallback` for a
failing field (websocket.rs lines 323–328). -/
def fallbackError (fieldName : String) : String :=
  if fieldName = "nonce" then "invalid nonce encoding"
  else if fieldName = "tag" then "invalid tag encoding"
  else if fieldName = "data" ∨ fieldName = "ciphertext" then
    "invalid data encoding"
  else "invalid base64 encoding"

/-- `decode_base64_with_fallback` (websocket.rs lines 310–330): try the
padded standard engine, fall back to the unpadded one. -/
def decode_base64_with_fallback (encoded fieldName : String) :
    Except String (List Nat) :=
  match base64DecodePadded encoded with
  | some bs => .ok bs
  | none =>
      match base64DecodeNoPad encoded with
      | some bs => .ok bs
      | none => .error (fallbackError fieldName)

/-- The `ciphertext`-or-`data` field selection used by the validator:
`payload.get("ciphertext").or_else(|| payload.get("data")).and_then(as_str)`. -/
def ciphertextField (payload : Json) : Option String :=
  ((payload.get ("ciphertext")).orElse (fun _ => payload.get ("data"))).bind
    Json.asStr

/-- `validate_encryption_block` (websocket.rs lines 687–741). -/
def validate_encryption_block (payload : Json) : Except String Unit :=
  match payload.get ("encryption") with
  | none => .error ("missing encryption block")
  | some encryption =>
    match (encryption.get ("nonce")).bind Json.asStr with
    | none => .error ("missing nonce")
    | some nonce =>
      match (encryption.get ("tag")).bind Json.asStr with
      | none => .error ("missing tag")
      | some tag =>
        if nonce = "" ∧ tag = "" then
          match ciphertextField payload with
          | none => .error ("missing data/ciphertext field")
          | some data =>
            match decode_base64_with_fallback data ("data") with
            | .error e => .error e
            | .ok _ => .ok ()
        else
          match decode_base64_with_fallback nonce ("nonce") with
          | .error e => .error e
          | .ok nonceDecoded =>
            if nonceDecoded.length ≠ 12 then .error ("nonce must be 12 bytes")
            else
              match decode_base64_with_fallback tag ("tag") with
              | .error e => .error e
              | .ok tagDecoded =>
                if tagDecoded.length ≠ 16 then .error ("tag must be 16 bytes")
                else
                  match ciphertextField payload with
                  | none => .error ("missing data/ciphertext field")
                  | some data =>
                    match decode_base64_with_fallback data ("ciphertext") with
                    | .error e => .error e
                    | .ok _ => .ok ()

/-! ## Device key store (src/backend/src/services/device_key_store.rs) -/

/-- The key registry: device id to 32-byte symmetric key bytes. -/
abbrev DeviceKeyStore := List (String × List Nat)

/-- `DeviceKeyStore::store`. -/
def DeviceKeyStore.store (deviceId : String) (key : List Nat)
    (ks : DeviceKeyStore) : DeviceKeyStore :=
  ainsert deviceId key ks

/-- `DeviceKeyStore::remove`. -/
def DeviceKeyStore.removeKey (deviceId : String) (ks : DeviceKeyStore) :
    DeviceKeyStore :=
  aerase deviceId ks

/-- `DeviceKeyStore::get`. -/
def DeviceKeyStore.getKey (deviceId : String) (ks : DeviceKeyStore) :
    Option (List Nat) :=
  alookup deviceId ks

/-! ## Message envelopes (src/backend/src/models/message.rs) -/

/-- `MessageType`. -/
inductive MessageType where
  | clipboard
  | control
deriving DecidableEq

/-- A parsed `ClipboardMessage` envelope.  The `id` UUID is modelled as
its string form; the optional `compression` block is never read by the
handlers and is omitted. -/
structure ClipboardMessage where
  id : String
  timestamp : String
  version : String
  msg_type : MessageType
  payload : Json

/-! ## WebSocket handler (src/backend/src/handlers/websocket.rs)

The handler is embedded from the point where the envelope JSON has been
deserialized (`serde_json::from_str` succeeded): it receives the parsed
envelope together with the original frame bytes, exactly the data the
source works with from line 375 on.  The ambient time and the freshly
drawn UUID of a control reply are passed as parameters. -/

/-- The sender's `actix_ws::Session` as seen by the handler: a sink of
binary frames that fails once the underlying transport has closed. -/
structure WsSession where
  closed : Bool
  sent : List Frame
deriving DecidableEq

/-- `Session::binary`: push a frame, failing if the session is closed. -/
def WsSession.binary (s : WsSession) (f : Frame) :
    Except Unit Unit × WsSession :=
  if s.closed then (.error (), s)
  else (.ok (), { s with sent := s.sent ++ [f] })

/-- The state the handler touches: the session registry, the device key
store and the sender's websocket session. -/
structure RelayCtx where
  sessions : SessionsState
  keyStore : DeviceKeyStore
  senderSession : WsSession

/-- The parsed `ControlMessagePayload` (websocket.rs lines 576–585). -/
structure ControlMessagePayload where
  action : String
  symmetric_key : Option String
  device_ids : Option (List String)

/-- Model of `serde_json::from_value::<ControlMessagePayload>`: the
payload must be an object with a string `action`; `symmetric_key` and
`device_ids` default to `none` when absent or null, and fail the whole
parse when present with the wrong shape; unknown fields are ignored. -/
def parseControlPayload (payload : Json) : Option ControlMessagePayload :=
  match payload with
  | .obj _ =>
    match (payload.get ("action")).bind Json.asStr with
    | none => none
    | some action =>
      let symKey : Option (Option String) :=
        match payload.get ("symmetric_key") with
        | none => some none
        | some .null => some none
        | some v => (v.asStr).map some
      let devIds : Option (Option (List String)) :=
        match payload.get ("device_ids") with
        | none => some none
        | some .null => some none
        | some (.arr elems) => (elems.mapM Json.asStr).map some
        | some _ => none
      match symKey, devIds with
      | some sk, some di => some ⟨action, sk, di⟩
      | _, _ => none
  | _ => none

/-- The `query_connected_peers` control reply envelope
(websocket.rs lines 662–672). -/
def queryPeersResponse (freshId nowStr : String)
    (connectedDevices : List ConnectedDeviceInfo)
    (originalMessageId : String) : Json :=
  .obj [(("id"), .str freshId),
        (("timestamp"), .str nowStr),
        (("version"), .str ("1.0")),
        (("type"), .str ("control")),
        (("payload"), .obj
          [(("action"), .str ("query_connected_peers")),
           (("connected_devices"), .arr (connectedDevices.map
             (fun info => .obj [(("device_id"), .str info.device_id),
                                (("last_seen"), .num info.last_seen)]))),
           (("original_message_id"), .str originalMessageId)])]

/-- `handle_control_message` (websocket.rs lines 587–685).  `now` is
the timestamp used for `touch`; `nowStr` and `freshId` are the RFC 3339
clock reading and the fresh UUID drawn inside the
`query_connected_peers` arm. -/
def handleControlMessage (senderId originalMessageId : String)
    (payload : Json) (now : Nat) (nowStr freshId : String)
    (ctx : RelayCtx) : RelayCtx :=
  let ctx := { ctx with sessions := ctx.sessions.touch senderId now }
  match parseControlPayload payload with
  | none => ctx
  | some control =>
    if control.action = "register_key" then
      match control.symmetric_key with
      | none => ctx
      | some encodedKey =>
        match base64DecodePadded encodedKey with
        | some key =>
            if key.length = 32 then
              { ctx with keyStore := DeviceKeyStore.store senderId key ctx.keyStore }
            else ctx
        | none => ctx
    else if control.action = "deregister_key" then
      { ctx with keyStore := DeviceKeyStore.removeKey senderId ctx.keyStore }
    else if control.action = "query_connected_peers" then
      let connectedDevices := ctx.sessions.getConnectedDevicesInfo
      let connectedDevices :=
        match control.device_ids with
        | some requestedIds =>
            connectedDevices.filter (fun info => memb info.device_id requestedIds)
        | none => connectedDevices
      let responseFrame :=
        encode_binary_frame
          (queryPeersResponse freshId nowStr connectedDevices originalMessageId).renderBytes
      let (_, s') := ctx.senderSession.binary responseFrame
      { ctx with senderSession := s' }
    else ctx

/-- The error envelope synthesized on `DeviceNotConnected`
(websocket.rs lines 423–435). -/
def deviceNotConnectedError (msgId nowStr target : String)
    (connectedDevices : List String) : Json :=
  .obj [(("id"), .str msgId),
        (("timestamp"), .str nowStr),
        (("version"), .str ("1.0")),
        (("type"), .str ("error")),
        (("payload"), .obj
          [(("code"), .str ("device_not_connected")),
           (("message"), .str ("Target device " ++ target ++
             " is not connected to the relay server. Device may be offline or disconnected.")),
           (("original_message_id"), .str msgId),
           (("target_device_id"), .str target),
           (("connected_devices"), .arr (connectedDevices.map Json.str))])]

/-- `handle_binary_message` from the point after frame decode and JSON
parse (websocket.rs lines 375–468): control dispatch, `touch`, envelope
validation, target extraction and routing, including the synthesized
device-not-connected error written to the sender's own websocket
session. -/
def handleBinaryMessage (senderId : String) (frame : Frame)
    (parsed : ClipboardMessage) (now : Nat) (nowStr freshId : String)
    (ctx : RelayCtx) : Except SessionError Unit × RelayCtx :=
  if parsed.msg_type = .control then
    (.ok (),
      handleControlMessage senderId parsed.id parsed.payload now nowStr freshId ctx)
  else
    let ctx := { ctx with sessions := ctx.sessions.touch senderId now }
    match validate_encryption_block parsed.payload with
    | .error _ => (.ok (), ctx)
    | .ok _ =>
      match ((parsed.payload.get ("target")).bind Json.asStr).map lowerStr with
      | some target =>
        let (res, sessions') := ctx.sessions.sendBinary target frame
        let ctx := { ctx with sessions := sessions' }
        match res with
        | .ok _ => (.ok (), ctx)
        | .error .deviceNotConnected =>
          let registeredDevices := ctx.sessions.getConnectedDevices
          let errorFrame :=
            encode_binary_frame
              (deviceNotConnectedError parsed.id nowStr target registeredDevices).renderBytes
          let (_, s') := ctx.senderSession.binary errorFrame
          (.error .deviceNotConnected, { ctx with senderSession := s' })
        | .error e => (.error e, ctx)
      | none =>
        (.ok (),
          { ctx with sessions := ctx.sessions.broadcastExceptBinary senderId frame })

/-! ## Peer listing filters (peers.rs and websocket.rs) -/

/-- The requested-id set built by `connected_peers_handler`
(peers.rs lines 67–74): split each query value on commas, trim,
drop empties, lowercase. -/
def peersRequestedIds (deviceIdParams : List String) : List String :=
  (((deviceIdParams.map splitCommaStr).flatten.map trimStr).filter
      (fun s => decide (s ≠ ""))).map lowerStr

/-- The privacy filter of the HTTP /peers handler
(peers.rs lines 82–83). -/
def peersFilter (deviceIdParams : List String)
    (connected : List ConnectedDeviceInfo) : List ConnectedDeviceInfo :=
  connected.filter (fun info => memb info.device_id (peersRequestedIds deviceIdParams))

/-- The privacy filter of the `query_connected_peers` control action
(websocket.rs lines 634–636): the requested ids are used verbatim. -/
def controlPeersFilter (requestedIds : List String)
    (connected : List ConnectedDeviceInfo) : List ConnectedDeviceInfo :=
  connected.filter (fun info => memb info.device_id requestedIds)

/-! ## Association-list lemmas -/

theorem alookup_aerase_self (k : String) (l : List (String × β)) :
    alookup k (aerase k l) = none := by
  induction l with
  | nil => rfl
  | cons p rest ih =>
    obtain ⟨k', v⟩ := p
    by_cases h : k' = k <;> simp [aerase, alookup, h, ih]

theorem alookup_aerase_ne (k k' : String) (l : List (String × β))
    (h : k ≠ k') : alookup k (aerase k' l) = alookup k l := by
  induction l with
  | nil => rfl
  | cons p rest ih =>
    obtain ⟨k'', v⟩ := p
    by_cases h1 : k'' = k'
    · subst h1
      simp [aerase, alookup, Ne.symm h, ih]
    · by_cases h2 : k'' = k <;> simp [aerase, alookup, h1, h2, h, ih]

theorem alookup_aupdate_self (k : String) (f : β → β) (l : List (String × β)) :
    alookup k (aupdate k f l) = (alookup k l).map f := by
  induction l with
  | nil => rfl
  | cons p rest ih =>
    obtain ⟨k', v⟩ := p
    by_cases h : k' = k <;> simp [aupdate, alookup, h, ih]

theorem alookup_aupdate_ne (k k' : String) (f : β → β) (l : List (String × β))
    (h : k ≠ k') : alookup k (aupdate k' f l) = alookup k l := by
  induction l with
  | nil => rfl
  | cons p rest ih =>
    obtain ⟨k'', v⟩ := p
    by_cases h1 : k'' = k'
    · subst h1
      simp [aupdate, alookup, Ne.symm h, ih]
    · by_cases h2 : k'' = k <;> simp [aupdate, alookup, h1, h2, h, ih]

theorem alookup_append (k : String) (l1 l2 : List (String × β)) :
    alookup k (l1 ++ l2) =
      match alookup k l1 with
      | some v => some v
      | none => alookup k l2 := by
  induction l1 with
  | nil => rfl
  | cons p rest ih =>
    obtain ⟨k', v⟩ := p
    by_cases h : k' = k <;> simp [alookup, h, ih]

theorem alookup_ainsert_self (k : String) (v : β) (l : List (String × β)) :
    alookup k (ainsert k v l) = some v := by
  simp [ainsert, alookup_append, alookup_aerase_self, alookup]

theorem alookup_ainsert_ne (k k' : String) (v : β) (l : List (String × β))
    (h : k ≠ k') : alookup k (ainsert k' v l) = alookup k l := by
  rw [ainsert, alookup_append, alookup_aerase_ne k k' l h]
  cases alookup k l <;> simp [alookup, Ne.symm h]

theorem alookup_map_pairs (k : String) (g : String × β → β)
    (l : List (String × β)) :
    alookup k (l.map (fun p => (p.1, g p))) =
      (alookup k l).map (fun v => g (k, v)) := by
  induction l with
  | nil => rfl
  | cons p rest ih =>
    obtain ⟨k', v⟩ := p
    by_cases h : k' = k
    · subst h; simp [alookup, ih]
    · simp [alookup, h, ih]

theorem alookup_broadcast (st : SessionsState) (sender k : String) (f : Frame) :
    alookup k (st.broadcastExceptBinary sender f).entries =
      (alookup k st.entries).map
        (fun e =>
          if k = sender then e
          else if e.channel.closed then e
          else { e with channel := ⟨e.channel.closed, e.channel.queue ++ [f]⟩ }) :=
  alookup_map_pairs k _ st.entries

theorem memb_iff (a : String) (l : List String) : memb a l = true ↔ a ∈ l := by
  induction l with
  | nil => simp [memb]
  | cons x rest ih =>
    by_cases h : x = a <;> simp [memb, h, ih]
    exact fun hh => (h hh.symm).elim

/-! ## Claim theorems -/

/-- Claim C2: `unregister_with_token(device_id, token)` removes the
registry entry if and only if a currently registered entry for the
device exists and its token equals the provided token; it returns true
exactly when it removed the entry, and when it returns false the
registry is left unchanged. -/
theorem unregisterWithToken_spec (st : SessionsState) (d : String) (t : Nat) :
    ((st.unregisterWithToken d t).1 = true ↔
      ∃ e, alookup d st.entries = some e ∧ e.token = t) ∧
    (st.unregisterWithToken d t).2 =
      (if (st.unregisterWithToken d t).1 = true then
        { st with entries := aerase d st.entries }
      else st) := by
  unfold SessionsState.unregisterWithToken
  cases h : alookup d st.entries with
  | none => simp [h]
  | some e => by_cases ht : e.token = t <;> simp [h, ht]

/-- Claim C5: after `broadcast_except_binary(s, f)`, every registered
recipient `r ≠ s` with a live channel that did not already hold `f`
holds `f` exactly once (appended byte-identically), and the sender's
own entry is unchanged; the delivery to `r` does not depend on the
state of any other recipient's channel. -/
theorem broadcast_except_binary_delivers (st : SessionsState) (s r : String)
    (f : Frame) (e : SessionEntry)
    (hr : alookup r st.entries = some e)
    (hne : r ≠ s)
    (hopen : e.channel.closed = false)
    (hfresh : f ∉ e.channel.queue) :
    ∃ e', alookup r (st.broadcastExceptBinary s f).entries = some e' ∧
      e'.channel.queue = e.channel.queue ++ [f] ∧
      e'.channel.queue.count f = 1 ∧
      alookup s (st.broadcastExceptBinary s f).entries = alookup s st.entries := by
  rw [alookup_broadcast, alookup_broadcast, hr]
  refine ⟨_, rfl, ?_, ?_, ?_⟩
  · simp [hne, hopen]
  · simp [hne, hopen, List.count_append, List.count_eq_zero.mpr hfresh]
  · cases alookup s st.entries <;> simp

/-- Witness for claim C5 at a concrete two-device registry. -/
theorem broadcast_except_binary_delivers_witness :
    ∃ e', alookup "bob"
        ((SessionsState.mk [("alice", ⟨⟨false, []⟩, 0, 0⟩), ("bob", ⟨⟨false, []⟩, 1, 0⟩)] 2).broadcastExceptBinary
          "alice" [byte 7]).entries = some e' ∧
      e'.channel.queue = ([] : List Frame) ++ [[byte 7]] ∧
      e'.channel.queue.count [byte 7] = 1 ∧
      alookup "alice"
        ((SessionsState.mk [("alice", ⟨⟨false, []⟩, 0, 0⟩), ("bob", ⟨⟨false, []⟩, 1, 0⟩)] 2).broadcastExceptBinary
          "alice" [byte 7]).entries =
        alookup "alice"
          (SessionsState.mk [("alice", ⟨⟨false, []⟩, 0, 0⟩), ("bob", ⟨⟨false, []⟩, 1, 0⟩)] 2).entries :=
  broadcast_except_binary_delivers _ "alice" "bob" [byte 7] ⟨⟨false, []⟩, 1, 0⟩
    (by decide) (by decide) rfl (by simp)

/-- Claim C6: for every input byte sequence, the strict frame decoder
fails with 'frame too short' exactly when the input length is under 4;
otherwise fails with 'frame truncated' exactly when the input is
shorter than 4 plus the declared big-endian length; otherwise fails
with 'frame has trailing bytes' exactly when it is longer; otherwise
fails with the invalid-UTF-8 error exactly when the payload is not
valid UTF-8; and on success returns the declared-length slice after the
4-byte prefix. -/
theorem decode_binary_frame_spec (data : List Byte) :
    (decode_binary_frame data = .error ("frame too short") ↔ data.length < 4) ∧
    (decode_binary_frame data = .error ("frame truncated") ↔
      4 ≤ data.length ∧ data.length < 4 + declaredLen data) ∧
    (decode_binary_frame data = .error ("frame has trailing bytes") ↔
      4 ≤ data.length ∧ 4 + declaredLen data < data.length) ∧
    (decode_binary_frame data = .error ("invalid UTF-8 in JSON payload") ↔
      data.length = 4 + declaredLen data ∧
      validUtf8 ((data.drop 4).take (declaredLen data)) = false) ∧
    (∀ out, decode_binary_frame data = .ok out ↔
      data.length = 4 + declaredLen data ∧ validUtf8 out = true ∧
      out = (data.drop 4).take (declaredLen data)) := by
  match data with
  | [] => simp [decode_binary_frame, declaredLen]
  | [_] => simp [decode_binary_frame, declaredLen]
  | [_, _] => simp [decode_binary_frame, declaredLen]
  | [_, _, _] => simp [decode_binary_frame, declaredLen]
  | b0 :: b1 :: b2 :: b3 :: rest =>
    simp only [decode_binary_frame, declaredLen, List.length_cons,
      List.drop_succ_cons, List.drop_zero]
    split_ifs with hc1 hc2 hc3
    · refine ⟨by first | (simp; omega) | simp, by first | (simp; omega) | simp, by first | (simp; omega) | simp, by first | (simp; omega) | simp, ?_⟩
      intro out
      simp only [reduceCtorEq, false_iff]
      intro hout
      omega
    · refine ⟨by first | (simp; omega) | simp, by first | (simp; omega) | simp, by first | (simp; omega) | simp, by first | (simp; omega) | simp, ?_⟩
      intro out
      simp only [reduceCtorEq, false_iff]
      intro hout
      omega
    · have htake : rest.take (b0.val * 16777216 + b1.val * 65536 + b2.val * 256 + b3.val) = rest :=
        List.take_of_length_le (by omega)
      rw [htake] at hc3 ⊢
      refine ⟨by first | (simp; omega) | simp, by first | (simp; omega) | simp, by first | (simp; omega) | simp,
        by simp [hc3], ?_⟩
      intro out
      simp only [Except.ok.injEq]
      constructor
      · intro hout
        exact ⟨by omega, hout ▸ hc3, hout.symm⟩
      · exact fun hout => hout.2.2.symm
    · have htake : rest.take (b0.val * 16777216 + b1.val * 65536 + b2.val * 256 + b3.val) = rest :=
        List.take_of_length_le (by omega)
      rw [htake] at hc3 ⊢
      refine ⟨by first | (simp; omega) | simp, by first | (simp; omega) | simp, by first | (simp; omega) | simp,
        by simp [hc3]; omega, ?_⟩
      intro out
      simp only [reduceCtorEq, false_iff]
      intro hout
      exact hc3 (hout.2.2 ▸ hout.2.1)

/-- Base64 decoding in either dialect (padded standard alphabet first,
unpadded as fallback); the decoding relation the spec refers to by
"base64-decodable (padded or unpadded standard alphabet)". -/
def base64Either (s : String) : Option (List Nat) :=
  match base64DecodePadded s with
  | some bs => some bs
  | none => base64DecodeNoPad s

theorem decode_fallback_eq (s fieldName : String) :
    decode_base64_with_fallback s fieldName =
      (match base64Either s with
       | some bs => .ok bs
       | none => .error (fallbackError fieldName)) := by
  unfold decode_base64_with_fallback base64Either
  cases base64DecodePadded s
  · cases base64DecodeNoPad s <;> rfl
  · rfl

/-- The acceptance condition of claim C4, written from the claim's own
words: the `encryption` object has string fields `nonce` and `tag`, and
either (a) both are empty and a `ciphertext`/`data` string field is
present and base64-decodable, or (b) `nonce` decodes to exactly 12
bytes, `tag` to exactly 16 bytes, and `ciphertext`/`data` is present
and base64-decodable. -/
def claimAcceptsPayload (payload : Json) : Prop :=
  ∃ enc nonce tag,
    payload.get ("encryption") = some enc ∧
    (enc.get ("nonce")).bind Json.asStr = some nonce ∧
    (enc.get ("tag")).bind Json.asStr = some tag ∧
    ((nonce = "" ∧ tag = "" ∧
        ∃ data bs, ciphertextField payload = some data ∧
          base64Either data = some bs) ∨
      ((∃ nb, base64Either nonce = some nb ∧ nb.length = 12) ∧
        (∃ tb, base64Either tag = some tb ∧ tb.length = 16) ∧
        (∃ data bs, ciphertextField payload = some data ∧
          base64Either data = some bs)))

/-- Claim C4: the envelope validator accepts a clipboard payload if and
only if either (a) the `encryption` object has string `nonce` and `tag`
fields that are both empty and a `ciphertext` (alias `data`) string
field is present and base64-decodable (padded or unpadded standard
alphabet), or (b) `nonce` decodes to exactly 12 bytes, `tag` to exactly
16 bytes, and `ciphertext`/`data` is present and base64-decodable; in
all other cases it rejects. -/
theorem validate_encryption_block_spec (payload : Json) :
    validate_encryption_block payload = .ok () ↔ claimAcceptsPayload payload := by
  have hemptyDec : base64Either "" = some [] := by decide
  unfold validate_encryption_block claimAcceptsPayload
  cases henc : payload.get ("encryption") with
  | none => simp
  | some enc =>
    cases hn : (enc.get ("nonce")).bind Json.asStr with
    | none => simp [hn]
    | some nonce =>
      cases ht : (enc.get ("tag")).bind Json.asStr with
      | none => simp [hn, ht]
      | some tag =>
        by_cases hempty : nonce = "" ∧ tag = ""
        · obtain ⟨hn0, ht0⟩ := hempty
          subst hn0; subst ht0
          cases hd : ciphertextField payload with
          | none => simp [hn, ht, hd, hemptyDec]
          | some data =>
            cases hb : base64Either data with
            | none => simp [hn, ht, hd, hb, decode_fallback_eq, hemptyDec]
            | some bs => simp [hn, ht, hd, hb, decode_fallback_eq, hemptyDec]
        · cases hnd : base64Either nonce with
          | none =>
              simp [hn, ht, hnd, decode_fallback_eq, hempty]
              exact fun h1 h2 => absurd ⟨h1, h2⟩ hempty
          | some nb =>
            by_cases hn12 : nb.length = 12
            · cases htd : base64Either tag with
              | none =>
                  simp [hn, ht, hnd, htd, hn12, decode_fallback_eq, hempty]
                  exact fun h1 h2 => absurd ⟨h1, h2⟩ hempty
              | some tb =>
                by_cases ht16 : tb.length = 16
                · cases hd : ciphertextField payload with
                  | none =>
                      simp [hn, ht, hnd, htd, hd, hn12, ht16,
                        decode_fallback_eq, hempty]
                  | some data =>
                    cases hb : base64Either data with
                    | none =>
                        simp [hn, ht, hnd, htd, hd, hb, hn12, ht16,
                          decode_fallback_eq, hempty]
                    | some bs =>
                        simp [hn, ht, hnd, htd, hd, hb, hn12, ht16,
                          decode_fallback_eq, hempty]
                · simp [hn, ht, hnd, htd, hn12, ht16, decode_fallback_eq, hempty]
                  exact fun h1 h2 => absurd ⟨h1, h2⟩ hempty
            · simp [hn, ht, hnd, hn12, decode_fallback_eq, hempty]
              exact fun h1 h2 => absurd ⟨h1, h2⟩ hempty

/-- Claim C9: for a `register_key` control message, a key is stored in
the device key registry for the sender if and only if the provided
`symmetric_key` decodes (standard padded base64, `BASE64.decode`) to
exactly 32 bytes — in which case the stored entry is that key — and on
any other input the registry is unchanged. -/
theorem register_key_spec (ctx : RelayCtx) (sender origId : String)
    (payload : Json) (now : Nat) (nowStr freshId : String)
    (ctrl : ControlMessagePayload)
    (hparse : parseControlPayload payload = some ctrl)
    (haction : ctrl.action = "register_key") :
    (∃ sk key, ctrl.symmetric_key = some sk ∧
        base64DecodePadded sk = some key ∧ key.length = 32 ∧
        (handleControlMessage sender origId payload now nowStr freshId ctx).keyStore =
          DeviceKeyStore.store sender key ctx.keyStore ∧
        alookup sender
          (handleControlMessage sender origId payload now nowStr freshId ctx).keyStore =
          some key) ∨
    ((handleControlMessage sender origId payload now nowStr freshId ctx).keyStore =
        ctx.keyStore ∧
      ¬ ∃ sk key, ctrl.symmetric_key = some sk ∧
          base64DecodePadded sk = some key ∧ key.length = 32) := by
  unfold handleControlMessage
  rw [hparse]
  simp only [haction, if_pos]
  cases hsk : ctrl.symmetric_key with
  | none => right; simp
  | some sk =>
    cases hdec : base64DecodePadded sk with
    | none =>
        right
        constructor
        · simp [hdec]
        · rintro ⟨sk', key', hsk', hdec', -⟩
          cases hsk'
          rw [hdec] at hdec'
          cases hdec'
    | some key =>
      by_cases hlen : key.length = 32
      · left
        refine ⟨sk, key, rfl, hdec, hlen, by simp [hdec, hlen], ?_⟩
        simp [hdec, hlen, DeviceKeyStore.store, alookup_ainsert_self]
      · right
        constructor
        · simp [hdec, hlen]
        · rintro ⟨sk', key', hsk', hdec', hlen'⟩
          cases hsk'
          rw [hdec] at hdec'
          cases hdec'
          exact hlen hlen'

/-- Witness for claim C9: a key of 32 zero bytes is accepted and
stored. -/
theorem register_key_spec_witness :
    (∃ sk key,
        (ControlMessagePayload.mk ("register_key")
            (some ("AAAAAAAAAAAAAAAAAAAAAAAAAAAAAAAAAAAAAAAAAAA="))
            none).symmetric_key = some sk ∧
        base64DecodePadded sk = some key ∧ key.length = 32 ∧
        (handleControlMessage "alice" "m1"
            (.obj [(("action"), .str ("register_key")),
                   (("symmetric_key"),
                     .str ("AAAAAAAAAAAAAAAAAAAAAAAAAAAAAAAAAAAAAAAAAAA="))])
            5 "t1" "u1" ⟨⟨[], 0⟩, [], ⟨false, []⟩⟩).keyStore =
          DeviceKeyStore.store "alice" key (RelayCtx.mk ⟨[], 0⟩ [] ⟨false, []⟩).keyStore ∧
        alookup "alice"
          (handleControlMessage "alice" "m1"
              (.obj [(("action"), .str ("register_key")),
                     (("symmetric_key"),
                       .str ("AAAAAAAAAAAAAAAAAAAAAAAAAAAAAAAAAAAAAAAAAAA="))])
              5 "t1" "u1" ⟨⟨[], 0⟩, [], ⟨false, []⟩⟩).keyStore =
          some key) ∨
    ((handleControlMessage "alice" "m1"
          (.obj [(("action"), .str ("register_key")),
                 (("symmetric_key"),
                   .str ("AAAAAAAAAAAAAAAAAAAAAAAAAAAAAAAAAAAAAAAAAAA="))])
          5 "t1" "u1" ⟨⟨[], 0⟩, [], ⟨false, []⟩⟩).keyStore =
        (RelayCtx.mk ⟨[], 0⟩ [] ⟨false, []⟩).keyStore ∧
      ¬ ∃ sk key,
          (ControlMessagePayload.mk ("register_key")
              (some ("AAAAAAAAAAAAAAAAAAAAAAAAAAAAAAAAAAAAAAAAAAA="))
              none).symmetric_key = some sk ∧
          base64DecodePadded sk = some key ∧ key.length = 32) :=
  register_key_spec ⟨⟨[], 0⟩, [], ⟨false, []⟩⟩ "alice" "m1"
    (.obj [(("action"), .str ("register_key")),
           (("symmetric_key"),
             .str ("AAAAAAAAAAAAAAAAAAAAAAAAAAAAAAAAAAAAAAAAAAA="))])
    5 "t1" "u1"
    (ControlMessagePayload.mk ("register_key")
      (some ("AAAAAAAAAAAAAAAAAAAAAAAAAAAAAAAAAAAAAAAAAAA=")) none)
    rfl rfl

theorem aupdate_of_none (k : String) (f : β → β) (l : List (String × β))
    (h : alookup k l = none) : aupdate k f l = l := by
  induction l with
  | nil => rfl
  | cons p rest ih =>
    obtain ⟨k', v⟩ := p
    by_cases hk : k' = k
    · rw [alookup, if_pos hk] at h
      cases h
    · rw [alookup, if_neg hk] at h
      rw [aupdate, if_neg hk, ih h]

/-- The sessions component of `handle_control_message` is always the
`touch`-ed registry: no control action changes the session map. -/
theorem handleControl_sessions (senderId origId : String) (payload : Json)
    (now : Nat) (nowStr freshId : String) (ctx : RelayCtx) :
    (handleControlMessage senderId origId payload now nowStr freshId ctx).sessions =
      ctx.sessions.touch senderId now := by
  unfold handleControlMessage
  cases parseControlPayload payload with
  | none => rfl
  | some control =>
    by_cases h1 : control.action = "register_key"
    · simp only [h1, if_pos]
      cases hsk : control.symmetric_key with
      | none => simp
      | some sk =>
        simp only []
        cases hdec : base64DecodePadded sk with
        | none => simp [hdec]
        | some key =>
          by_cases hlen : key.length = 32 <;> simp [hdec, hlen]
    · by_cases h2 : control.action = "deregister_key"
      · simp [h1, h2]
      · by_cases h3 : control.action = "query_connected_peers" <;>
          simp [h1, h2, h3]

theorem sendBinary_lastSeen (st : SessionsState) (d : String) (f : Frame)
    (k : String) (e : SessionEntry) (h : alookup k st.entries = some e) :
    ∃ e', alookup k ((st.sendBinary d f).2).entries = some e' ∧
      e'.lastSeen = e.lastSeen := by
  unfold SessionsState.sendBinary
  cases hd : alookup d st.entries with
  | none => exact ⟨e, h, rfl⟩
  | some entry =>
    by_cases hc : entry.channel.closed
    · simp only [hc, if_pos]
      exact ⟨e, h, rfl⟩
    · simp only [hc, Bool.false_eq_true, if_neg, ite_false]
      by_cases hk : k = d
      · subst hk
        rw [alookup_aupdate_self, h]
        exact ⟨_, rfl, rfl⟩
      · rw [alookup_aupdate_ne k d _ _ hk]
        exact ⟨e, h, rfl⟩

theorem broadcast_lastSeen (st : SessionsState) (sender : String) (f : Frame)
    (k : String) (e : SessionEntry) (h : alookup k st.entries = some e) :
    ∃ e', alookup k (st.broadcastExceptBinary sender f).entries = some e' ∧
      e'.lastSeen = e.lastSeen := by
  rw [alookup_broadcast, h]
  refine ⟨_, rfl, ?_⟩
  dsimp only
  split_ifs <;> rfl

/-- Claim C8: every session entry carries a `last_seen` timestamp;
`touch(device_id)` sets exactly that entry's `last_seen` to the given
time, leaves every other entry alone, is a no-op when the device is
absent; and after the handler processes any parsed inbound clipboard or
control envelope from a registered sender, that sender's `last_seen`
equals the current time. -/
theorem touch_spec :
    (∀ (st : SessionsState) (d : String) (now : Nat) (e : SessionEntry),
        alookup d st.entries = some e →
          alookup d (st.touch d now).entries =
            some ⟨e.channel, e.token, now⟩) ∧
    (∀ (st : SessionsState) (d d' : String) (now : Nat), d' ≠ d →
        alookup d' (st.touch d now).entries = alookup d' st.entries) ∧
    (∀ (st : SessionsState) (d : String) (now : Nat),
        alookup d st.entries = none → st.touch d now = st) ∧
    (∀ (senderId : String) (frame : Frame) (parsed : ClipboardMessage)
        (now : Nat) (nowStr freshId : String) (ctx : RelayCtx)
        (e : SessionEntry),
        alookup senderId ctx.sessions.entries = some e →
          ∃ e', alookup senderId
              (handleBinaryMessage senderId frame parsed now nowStr freshId
                ctx).2.sessions.entries = some e' ∧
            e'.lastSeen = now) := by
  have htouch : ∀ (st : SessionsState) (d : String) (now : Nat)
      (e : SessionEntry), alookup d st.entries = some e →
        alookup d (st.touch d now).entries = some ⟨e.channel, e.token, now⟩ := by
    intro st d now e h
    unfold SessionsState.touch
    rw [alookup_aupdate_self, h]
    rfl
  refine ⟨htouch, ?_, ?_, ?_⟩
  · intro st d d' now hne
    unfold SessionsState.touch
    exact alookup_aupdate_ne d' d _ _ hne
  · intro st d now h
    unfold SessionsState.touch
    rw [aupdate_of_none d _ _ h]
  · intro senderId frame parsed now nowStr freshId ctx e h
    unfold handleBinaryMessage
    by_cases hty : parsed.msg_type = .control
    · simp only [hty, if_pos]
      rw [handleControl_sessions]
      exact ⟨_, htouch ctx.sessions senderId now e h, rfl⟩
    · simp only [hty, if_neg, ite_false]
      have h1 := htouch ctx.sessions senderId now e h
      cases validate_encryption_block parsed.payload with
      | error _ => exact ⟨_, h1, rfl⟩
      | ok _ =>
        cases ((parsed.payload.get ("target")).bind Json.asStr).map lowerStr with
        | some target =>
          obtain ⟨e', he', hl⟩ :=
            sendBinary_lastSeen (ctx.sessions.touch senderId now) target frame
              senderId _ h1
          cases hsend : ((ctx.sessions.touch senderId now).sendBinary target frame).1 with
          | ok _ =>
            refine ⟨e', ?_, hl⟩
            simp only [hsend] at he' ⊢
            convert he' using 3
          | error err =>
            cases err with
            | deviceNotConnected =>
              refine ⟨e', ?_, hl⟩
              simp [hsend] at he' ⊢
              convert he' using 3
            | sendError =>
              refine ⟨e', ?_, hl⟩
              simp [hsend] at he' ⊢
              convert he' using 3
            | invalidMessage =>
              refine ⟨e', ?_, hl⟩
              simp [hsend] at he' ⊢
              convert he' using 3
        | none =>
          obtain ⟨e', he', hl⟩ :=
            broadcast_lastSeen (ctx.sessions.touch senderId now) senderId frame
              senderId _ h1
          exact ⟨e', he', hl⟩

/-- Concrete single-device context for the claim C8 witness. -/
def c8Ctx : RelayCtx :=
  ⟨⟨[("a", ⟨⟨false, []⟩, 0, 1⟩)], 1⟩, [], ⟨false, []⟩⟩

/-- Concrete control envelope for the claim C8 witness. -/
def c8Msg : ClipboardMessage :=
  ⟨"m2", "2025-01-01T00:00:00Z", "1.0", .control, .obj []⟩

/-- Witness for claim C8 on a concrete one-entry registry. -/
theorem touch_spec_witness :
    alookup "a" ((SessionsState.mk [("a", ⟨⟨false, []⟩, 0, 1⟩)] 1).touch "a" 9).entries =
      some ⟨⟨false, []⟩, 0, 9⟩ ∧
    alookup "b" ((SessionsState.mk [("a", ⟨⟨false, []⟩, 0, 1⟩)] 1).touch "a" 9).entries =
      alookup "b" (SessionsState.mk [("a", ⟨⟨false, []⟩, 0, 1⟩)] 1).entries ∧
    (SessionsState.mk [("a", ⟨⟨false, []⟩, 0, 1⟩)] 1).touch "b" 9 =
      SessionsState.mk [("a", ⟨⟨false, []⟩, 0, 1⟩)] 1 ∧
    ∃ e', alookup "a"
        (handleBinaryMessage "a" [] c8Msg 9 "t1" "u1" c8Ctx).2.sessions.entries =
        some e' ∧ e'.lastSeen = 9 :=
  ⟨touch_spec.1 _ "a" 9 ⟨⟨false, []⟩, 0, 1⟩ (by decide),
   touch_spec.2.1 _ "a" "b" 9 (by decide),
   touch_spec.2.2.1 _ "b" 9 (by decide),
   touch_spec.2.2.2 "a" [] c8Msg 9 "t1" "u1" c8Ctx ⟨⟨false, []⟩, 0, 1⟩ (by decide)⟩

theorem alookup_touch_none (st : SessionsState) (d : String) (now : Nat)
    (k : String) (h : alookup k st.entries = none) :
    alookup k (st.touch d now).entries = none := by
  unfold SessionsState.touch
  by_cases hk : k = d
  · subst hk
    rw [alookup_aupdate_self, h]
    rfl
  · rw [alookup_aupdate_ne k d _ _ hk, h]

/-- Claim C3 (amended): for every validated clipboard frame whose
lowercased `target` is not registered, the handler returns
`DeviceNotConnected` and writes the synthesized error envelope —
carrying code "device_not_connected" and `original_message_id` equal to
the envelope id — directly to the sender's websocket session (dropped
silently when that session has closed); the sender's registry outbound
channel receives nothing, its entry staying exactly the `touch`-ed
one. -/
theorem error_feedback_spec (senderId : String) (frame : Frame)
    (parsed : ClipboardMessage) (now : Nat) (nowStr freshId : String)
    (ctx : RelayCtx) (tgt : String)
    (hty : parsed.msg_type = .clipboard)
    (hval : validate_encryption_block parsed.payload = .ok ())
    (htgt : (parsed.payload.get ("target")).bind Json.asStr = some tgt)
    (habsent : alookup (lowerStr tgt) ctx.sessions.entries = none) :
    handleBinaryMessage senderId frame parsed now nowStr freshId ctx =
      (.error .deviceNotConnected,
        ⟨ctx.sessions.touch senderId now, ctx.keyStore,
          if ctx.senderSession.closed then ctx.senderSession
          else ⟨ctx.senderSession.closed,
            ctx.senderSession.sent ++
              [encode_binary_frame
                (deviceNotConnectedError parsed.id nowStr (lowerStr tgt)
                  (ctx.sessions.touch senderId now).getConnectedDevices).renderBytes]⟩⟩) ∧
    ((deviceNotConnectedError parsed.id nowStr (lowerStr tgt)
        (ctx.sessions.touch senderId now).getConnectedDevices).get
      ("payload")).bind (fun p => p.get ("code")) =
      some (.str ("device_not_connected")) ∧
    ((deviceNotConnectedError parsed.id nowStr (lowerStr tgt)
        (ctx.sessions.touch senderId now).getConnectedDevices).get
      ("payload")).bind (fun p => p.get ("original_message_id")) =
      some (.str parsed.id) ∧
    alookup senderId
      (handleBinaryMessage senderId frame parsed now nowStr freshId
        ctx).2.sessions.entries =
      alookup senderId (ctx.sessions.touch senderId now).entries := by
  have habsent' :
      alookup (lowerStr tgt) (ctx.sessions.touch senderId now).entries = none :=
    alookup_touch_none ctx.sessions senderId now (lowerStr tgt) habsent
  have hmain : handleBinaryMessage senderId frame parsed now nowStr freshId ctx =
      (.error .deviceNotConnected,
        ⟨ctx.sessions.touch senderId now, ctx.keyStore,
          if ctx.senderSession.closed then ctx.senderSession
          else ⟨ctx.senderSession.closed,
            ctx.senderSession.sent ++
              [encode_binary_frame
                (deviceNotConnectedError parsed.id nowStr (lowerStr tgt)
                  (ctx.sessions.touch senderId now).getConnectedDevices).renderBytes]⟩⟩) := by
    unfold handleBinaryMessage SessionsState.sendBinary WsSession.binary
    simp only [hty, hval, htgt, Option.map_some', habsent', reduceCtorEq,
      if_false, ite_false, Bool.false_eq_true]
    cases hc : ctx.senderSession.closed <;> simp [hc]
  refine ⟨hmain, rfl, rfl, ?_⟩
  rw [hmain]

/-- Concrete clipboard payload with a valid encryption block targeting
the unregistered device "Ghost". -/
def c3Payload : Json :=
  .obj [(("data"), .str ("Y2xpcGJvYXJk")),
        (("target"), .str ("Ghost")),
        (("encryption"), .obj [(("nonce"), .str ("AAAAAAAAAAAAAAAA")),
                               (("tag"), .str ("AAAAAAAAAAAAAAAAAAAAAA=="))])]

/-- Concrete validated clipboard envelope for claim C3. -/
def c3Msg : ClipboardMessage :=
  ⟨"m1", "2025-01-01T00:00:00Z", "1.0", .clipboard, c3Payload⟩

/-- Concrete context with only "alice" registered (empty outbound
channel, open websocket session). -/
def c3Ctx : RelayCtx :=
  ⟨⟨[("alice", ⟨⟨false, []⟩, 0, 0⟩)], 1⟩, [], ⟨false, []⟩⟩

/-- Claim C3 counterexample: on a validated clipboard frame targeting
the unregistered "Ghost", the handler takes the device-not-connected
path and writes exactly one synthesized error frame — but to the
sender's websocket session; the sender's outbound registry channel (the
queue drained by the writer task) stays empty, so the error is not
enqueued there as the claim states. -/
theorem error_not_enqueued_on_sender_channel :
    (handleBinaryMessage "alice" [byte 1] c3Msg 5 "t1" "u1" c3Ctx).1 =
      .error .deviceNotConnected ∧
    (handleBinaryMessage "alice" [byte 1] c3Msg 5 "t1" "u1"
        c3Ctx).2.senderSession.sent.length = 1 ∧
    (alookup "alice"
        (handleBinaryMessage "alice" [byte 1] c3Msg 5 "t1" "u1"
          c3Ctx).2.sessions.entries).map (fun e => e.channel.queue) =
      some [] := by
  refine ⟨rfl, rfl, by decide⟩

/-- Witness for the amended claim C3 at the concrete scenario of the
counterexample. -/
theorem error_feedback_spec_witness :
    handleBinaryMessage "alice" [byte 1] c3Msg 5 "t1" "u1" c3Ctx =
      (.error .deviceNotConnected,
        ⟨c3Ctx.sessions.touch "alice" 5, c3Ctx.keyStore,
          if c3Ctx.senderSession.closed then c3Ctx.senderSession
          else ⟨c3Ctx.senderSession.closed,
            c3Ctx.senderSession.sent ++
              [encode_binary_frame
                (deviceNotConnectedError c3Msg.id "t1" (lowerStr "Ghost")
                  (c3Ctx.sessions.touch "alice" 5).getConnectedDevices).renderBytes]⟩⟩) ∧
    ((deviceNotConnectedError c3Msg.id "t1" (lowerStr "Ghost")
        (c3Ctx.sessions.touch "alice" 5).getConnectedDevices).get
      ("payload")).bind (fun p => p.get ("code")) =
      some (.str ("device_not_connected")) ∧
    ((deviceNotConnectedError c3Msg.id "t1" (lowerStr "Ghost")
        (c3Ctx.sessions.touch "alice" 5).getConnectedDevices).get
      ("payload")).bind (fun p => p.get ("original_message_id")) =
      some (.str c3Msg.id) ∧
    alookup "alice"
      (handleBinaryMessage "alice" [byte 1] c3Msg 5 "t1" "u1"
        c3Ctx).2.sessions.entries =
      alookup "alice" (c3Ctx.sessions.touch "alice" 5).entries :=
  error_feedback_spec "alice" [byte 1] c3Msg 5 "t1" "u1" c3Ctx "Ghost"
    rfl rfl rfl (by decide)

/-- Claim C7 counterexample: with requested id "A" and connected device
"a", the /peers filter (which lowercases the requested ids) returns the
entry while the control-plane `query_connected_peers` filter (which
compares the requested ids verbatim) returns nothing — the two filters
are not the same function, and the control filter does not lowercase. -/
theorem peers_filters_differ :
    peersFilter ["A"] [⟨"a", 0⟩] = [⟨"a", 0⟩] ∧
    controlPeersFilter ["A"] [⟨"a", 0⟩] = [] ∧
    peersFilter ["A"] [⟨"a", 0⟩] ≠ controlPeersFilter ["A"] [⟨"a", 0⟩] :=
  ⟨by decide, by decide, by decide⟩

/-- Claim C7 (amended): each filter returns exactly the connected
entries whose device_id lies in its requested set, but only the /peers
handler normalizes the requested ids (comma-split, trim, drop empties,
lowercase) while the control-plane filter matches them verbatim; the
two filters agree whenever the requested ids are already normalized —
nonempty, comma-free, trimmed, lowercase. -/
theorem peers_filters_spec (req : List String)
    (connected : List ConnectedDeviceInfo)
    (hnorm : ∀ s ∈ req, splitCommaStr s = [s] ∧ trimStr s = s ∧
      lowerStr s = s ∧ s ≠ "") :
    peersFilter req connected = controlPeersFilter req connected ∧
    (∀ info, info ∈ peersFilter req connected ↔
      info ∈ connected ∧ info.device_id ∈ peersRequestedIds req) ∧
    (∀ info, info ∈ controlPeersFilter req connected ↔
      info ∈ connected ∧ info.device_id ∈ req) := by
  have hids : peersRequestedIds req = req := by
    induction req with
    | nil => rfl
    | cons s rest ih =>
      obtain ⟨h1, h2, h3, h4⟩ := hnorm s (by simp)
      have ih' := ih (fun x hx => hnorm x (List.mem_cons_of_mem _ hx))
      unfold peersRequestedIds at ih' ⊢
      simp only [List.map_cons, List.flatten_cons, List.map_append,
        List.filter_append, h1, List.map_cons, List.map_nil, h2,
        List.filter_cons, List.filter_nil, decide_not, h3]
      simp only [decide_not] at ih'
      rw [ih']
      simp [h3, h4]
  refine ⟨?_, ?_, ?_⟩
  · unfold peersFilter controlPeersFilter
    rw [hids]
  · intro info
    unfold peersFilter
    rw [List.mem_filter, memb_iff]
  · intro info
    unfold controlPeersFilter
    rw [List.mem_filter, memb_iff]

/-- Witness for the amended claim C7 at a concrete normalized request. -/
theorem peers_filters_spec_witness :
    peersFilter ["alice"] [⟨"alice", 0⟩, ⟨"bob", 1⟩] =
      controlPeersFilter ["alice"] [⟨"alice", 0⟩, ⟨"bob", 1⟩] ∧
    (∀ info, info ∈ peersFilter ["alice"] [⟨"alice", 0⟩, ⟨"bob", 1⟩] ↔
      info ∈ [⟨"alice", 0⟩, ⟨"bob", 1⟩] ∧
        info.device_id ∈ peersRequestedIds ["alice"]) ∧
    (∀ info, info ∈ controlPeersFilter ["alice"] [⟨"alice", 0⟩, ⟨"bob", 1⟩] ↔
      info ∈ [⟨"alice", 0⟩, ⟨"bob", 1⟩] ∧ info.device_id ∈ ["alice"]) :=
  peers_filters_spec ["alice"] [⟨"alice", 0⟩, ⟨"bob", 1⟩] (by decide)

/-! ## Registry invariants (claims C1 and C10)

The u64 counter wraps at `2 ^ 64`; the invariants hold for every
operation sequence with at most `2 ^ 64` registrations, i.e. any
sequence a process lifetime can produce before the counter wraps. -/

theorem countRegisters_append (l1 l2 : List RegOp) :
    countRegisters (l1 ++ l2) = countRegisters l1 + countRegisters l2 := by
  induction l1 with
  | nil => simp [countRegisters]
  | cons op rest ih => cases op <;> simp [countRegisters, ih] <;> omega

theorem runOps_append (st : SessionsState) (l1 l2 : List RegOp) :
    runOps st (l1 ++ l2) = runOps (runOps st l1) l2 := by
  induction l1 generalizing st with
  | nil => rfl
  | cons op rest ih =>
    rw [List.cons_append, runOps, runOps]
    exact ih (stepOp st op)

theorem unregisterWithToken_snd (st : SessionsState) (d : String) (t : Nat) :
    (st.unregisterWithToken d t).2 = st ∨
    (st.unregisterWithToken d t).2 = ⟨aerase d st.entries, st.nextToken⟩ := by
  unfold SessionsState.unregisterWithToken
  cases halo : alookup d st.entries with
  | none => left; rfl
  | some entry =>
    by_cases ht : entry.token = t
    · right; simp [ht]
    · left; simp [ht]

theorem nextToken_runOps (ops : List RegOp) (st : SessionsState) :
    (runOps st ops).nextToken = st.nextToken + countRegisters ops := by
  induction ops generalizing st with
  | nil => rfl
  | cons op rest ih =>
    cases op with
    | register d now =>
      rw [runOps, ih]
      simp only [stepOp, SessionsState.register, countRegisters]
      omega
    | unregisterTok d t =>
      rw [runOps, ih]
      have h : (stepOp st (.unregisterTok d t)).nextToken = st.nextToken := by
        rcases unregisterWithToken_snd st d t with h | h <;>
          simp only [stepOp, h]
      rw [h]
      rfl

theorem alookup_aerase_some (k d : String) (l : List (String × β))
    (v : β) (h : alookup d (aerase k l) = some v) : alookup d l = some v := by
  by_cases hd : d = k
  · subst hd
    rw [alookup_aerase_self] at h
    cases h
  · rwa [alookup_aerase_ne d k l hd] at h

theorem mem_keys_aerase (k a : String) (l : List (String × β))
    (h : a ∈ (aerase k l).map Prod.fst) : a ∈ l.map Prod.fst := by
  induction l with
  | nil => cases h
  | cons p rest ih =>
    obtain ⟨k', v⟩ := p
    by_cases hk : k' = k
    · rw [aerase, if_pos hk] at h
      exact List.mem_cons_of_mem _ (ih h)
    · rw [aerase, if_neg hk] at h
      rcases List.mem_cons.mp h with h1 | h1
      · exact List.mem_cons.mpr (Or.inl h1)
      · exact List.mem_cons_of_mem _ (ih h1)

theorem not_mem_keys_aerase (k : String) (l : List (String × β)) :
    k ∉ (aerase k l).map Prod.fst := by
  induction l with
  | nil => simp [aerase]
  | cons p rest ih =>
    obtain ⟨k', v⟩ := p
    by_cases hk : k' = k
    · rw [aerase, if_pos hk]
      exact ih
    · rw [aerase, if_neg hk]
      intro h
      rcases List.mem_cons.mp h with h1 | h1
      · exact hk h1.symm
      · exact ih h1

theorem nodup_keys_aerase (k : String) (l : List (String × β))
    (h : (l.map Prod.fst).Nodup) : ((aerase k l).map Prod.fst).Nodup := by
  induction l with
  | nil => simp [aerase]
  | cons p rest ih =>
    obtain ⟨k', v⟩ := p
    rw [List.map_cons, List.nodup_cons] at h
    by_cases hk : k' = k
    · rw [aerase, if_pos hk]
      exact ih h.2
    · rw [aerase, if_neg hk, List.map_cons, List.nodup_cons]
      exact ⟨fun hm => h.1 (mem_keys_aerase k k' rest hm), ih h.2⟩

theorem nodup_keys_ainsert (k : String) (v : β) (l : List (String × β))
    (h : (l.map Prod.fst).Nodup) : ((ainsert k v l).map Prod.fst).Nodup := by
  unfold ainsert
  rw [List.map_append]
  simp only [List.map_cons, List.map_nil]
  apply List.Nodup.append (nodup_keys_aerase k l h) (List.nodup_singleton k)
  intro a ha hb
  rw [List.mem_singleton] at hb
  subst hb
  exact not_mem_keys_aerase _ l ha

theorem nodup_keys_run (ops : List RegOp) (st : SessionsState)
    (h : (st.entries.map Prod.fst).Nodup) :
    ((runOps st ops).entries.map Prod.fst).Nodup := by
  induction ops generalizing st with
  | nil => exact h
  | cons op rest ih =>
    rw [runOps]
    apply ih
    cases op with
    | register d now => exact nodup_keys_ainsert d _ st.entries h
    | unregisterTok d t =>
      rcases unregisterWithToken_snd st d t with hs | hs <;>
        simp only [stepOp, hs]
      · exact h
      · exact nodup_keys_aerase d st.entries h

theorem tokLT_run (ops : List RegOp) (st : SessionsState)
    (h : ∀ d e, alookup d st.entries = some e → e.token < st.nextToken) :
    ∀ d e, alookup d (runOps st ops).entries = some e →
      e.token < (runOps st ops).nextToken := by
  induction ops generalizing st with
  | nil => exact h
  | cons op rest ih =>
    rw [runOps]
    apply ih
    cases op with
    | register d' now =>
      intro d e hf
      simp only [stepOp, SessionsState.register] at hf ⊢
      by_cases hd : d = d'
      · subst hd
        rw [alookup_ainsert_self] at hf
        cases hf
        exact Nat.lt_succ_of_le (Nat.mod_le _ _)
      · rw [alookup_ainsert_ne d d' _ _ hd] at hf
        exact Nat.lt_succ_of_lt (h d e hf)
    | unregisterTok d' t =>
      intro d e hf
      rcases unregisterWithToken_snd st d' t with hs | hs <;>
        simp only [stepOp, hs] at hf ⊢
      · exact h d e hf
      · exact h d e (alookup_aerase_some d' d st.entries e hf)

theorem traceMinted_ge (ops : List RegOp) (st : SessionsState)
    (hbound : st.nextToken + countRegisters ops ≤ 18446744073709551616) :
    ∀ p ∈ traceMinted st ops, st.nextToken ≤ p.2 := by
  induction ops generalizing st with
  | nil => intro p hp; cases hp
  | cons op rest ih =>
    cases op with
    | register d now =>
      have hcount : countRegisters (RegOp.register d now :: rest) =
          countRegisters rest + 1 := rfl
      rw [hcount] at hbound
      have hlt : st.nextToken < 18446744073709551616 := by omega
      intro p hp
      rw [traceMinted] at hp
      rcases List.mem_cons.mp hp with h1 | h1
      · subst h1
        simp only [SessionsState.register, Nat.mod_eq_of_lt hlt, le_refl]
      · have hb' : (stepOp st (.register d now)).nextToken +
            countRegisters rest ≤ 18446744073709551616 := by
          simp only [stepOp, SessionsState.register]
          omega
        have := ih (stepOp st (.register d now)) hb' p h1
        simp only [stepOp, SessionsState.register] at this
        omega
    | unregisterTok d t =>
      intro p hp
      rw [traceMinted] at hp
      have hnt : (stepOp st (.unregisterTok d t)).nextToken = st.nextToken := by
        rcases unregisterWithToken_snd st d t with hs | hs <;>
          simp only [stepOp, hs]
      have hb' : (stepOp st (.unregisterTok d t)).nextToken +
          countRegisters rest ≤ 18446744073709551616 := by
        rw [hnt]; exact hbound
      have := ih (stepOp st (.unregisterTok d t)) hb' p hp
      rwa [hnt] at this

theorem run_entry_token_ge (ops : List RegOp) (st : SessionsState)
    (hbound : st.nextToken + countRegisters ops ≤ 18446744073709551616)
    (d : String) (e' : SessionEntry)
    (hfind : alookup d (runOps st ops).entries = some e') :
    alookup d st.entries = some e' ∨ st.nextToken ≤ e'.token := by
  induction ops generalizing st with
  | nil => exact Or.inl hfind
  | cons op rest ih =>
    rw [runOps] at hfind
    cases op with
    | register d' now =>
      have hcount : countRegisters (RegOp.register d' now :: rest) =
          countRegisters rest + 1 := rfl
      rw [hcount] at hbound
      have hb' : (stepOp st (.register d' now)).nextToken +
          countRegisters rest ≤ 18446744073709551616 := by
        simp only [stepOp, SessionsState.register]
        omega
      rcases ih (stepOp st (.register d' now)) hb' hfind with h1 | h1
      · simp only [stepOp, SessionsState.register] at h1
        by_cases hd : d = d'
        · subst hd
          rw [alookup_ainsert_self] at h1
          cases h1
          right
          simp only [Nat.mod_eq_of_lt (show st.nextToken < 18446744073709551616 by omega),
            le_refl]
        · rw [alookup_ainsert_ne d d' _ _ hd] at h1
          exact Or.inl h1
      · right
        simp only [stepOp, SessionsState.register] at h1
        omega
    | unregisterTok d' t =>
      have hnt : (stepOp st (.unregisterTok d' t)).nextToken = st.nextToken := by
        rcases unregisterWithToken_snd st d' t with hs | hs <;>
          simp only [stepOp, hs]
      have hb' : (stepOp st (.unregisterTok d' t)).nextToken +
          countRegisters rest ≤ 18446744073709551616 := by
        rw [hnt]
        exact hbound
      rcases ih (stepOp st (.unregisterTok d' t)) hb' hfind with h1 | h1
      · rcases unregisterWithToken_snd st d' t with hs | hs <;>
          simp only [stepOp, hs] at h1
        · exact Or.inl h1
        · exact Or.inl (alookup_aerase_some d' d st.entries e' h1)
      · rw [hnt] at h1
        exact Or.inr h1

theorem mem_mintedBy (d : String) (T : List (String × Nat)) (t : Nat)
    (h : t ∈ mintedBy d T) : (d, t) ∈ T := by
  unfold mintedBy at h
  rw [List.mem_filterMap] at h
  obtain ⟨⟨a, b⟩, hp, he⟩ := h
  by_cases h1 : a = d
  · rw [if_pos h1] at he
    cases he
    subst h1
    exact hp
  · rw [if_neg h1] at he
    cases he

theorem mintedBy_cons (d d' : String) (tok : Nat) (T : List (String × Nat)) :
    mintedBy d ((d', tok) :: T) =
      if d' = d then tok :: mintedBy d T else mintedBy d T := by
  unfold mintedBy
  rw [List.filterMap_cons]
  split_ifs with h <;> simp [h]

theorem run_entry_token_max (ops : List RegOp) (st : SessionsState)
    (hbound : st.nextToken + countRegisters ops ≤ 18446744073709551616)
    (d : String) (e' : SessionEntry)
    (hfind : alookup d (runOps st ops).entries = some e') :
    (e'.token ∈ mintedBy d (traceMinted st ops) ∧
      ∀ t ∈ mintedBy d (traceMinted st ops), t ≤ e'.token) ∨
    (alookup d st.entries = some e' ∧ mintedBy d (traceMinted st ops) = []) := by
  induction ops generalizing st with
  | nil => exact Or.inr ⟨hfind, rfl⟩
  | cons op rest ih =>
    rw [runOps] at hfind
    cases op with
    | register d' now =>
      have hcount : countRegisters (RegOp.register d' now :: rest) =
          countRegisters rest + 1 := rfl
      rw [hcount] at hbound
      have hlt : st.nextToken < 18446744073709551616 := by omega
      have hb' : (stepOp st (.register d' now)).nextToken +
          countRegisters rest ≤ 18446744073709551616 := by
        simp only [stepOp, SessionsState.register]
        omega
      have hge := traceMinted_ge rest (stepOp st (.register d' now)) hb'
      have htok : (st.register d' now).1 = st.nextToken := by
        simp only [SessionsState.register, Nat.mod_eq_of_lt hlt]
      rw [traceMinted, htok]
      by_cases hd : d' = d
      · subst hd
        rw [mintedBy_cons, if_pos rfl]
        rcases ih (stepOp st (.register d' now)) hb' hfind with ⟨hmem, hmax⟩ | ⟨hlook, hempty⟩
        · left
          constructor
          · exact List.mem_cons_of_mem _ hmem
          · intro t ht
            rcases List.mem_cons.mp ht with h1 | h1
            · subst h1
              have hmem' := mem_mintedBy d' _ _ hmem
              have := hge _ hmem'
              simp only [stepOp, SessionsState.register] at this
              omega
            · exact hmax t h1
        · left
          simp only [stepOp, SessionsState.register] at hlook
          rw [alookup_ainsert_self] at hlook
          cases hlook
          rw [hempty]
          simp [Nat.mod_eq_of_lt hlt]
      · rw [mintedBy_cons, if_neg hd]
        rcases ih (stepOp st (.register d' now)) hb' hfind with h1 | ⟨hlook, hempty⟩
        · exact Or.inl h1
        · right
          simp only [stepOp, SessionsState.register] at hlook
          rw [alookup_ainsert_ne d d' _ _ (fun hh => hd hh.symm)] at hlook
          exact ⟨hlook, hempty⟩
    | unregisterTok d' t =>
      have hnt : (stepOp st (.unregisterTok d' t)).nextToken = st.nextToken := by
        rcases unregisterWithToken_snd st d' t with hs | hs <;>
          simp only [stepOp, hs]
      have hb' : (stepOp st (.unregisterTok d' t)).nextToken +
          countRegisters rest ≤ 18446744073709551616 := by
        rw [hnt]
        exact hbound
      rw [traceMinted]
      rcases ih (stepOp st (.unregisterTok d' t)) hb' hfind with h1 | ⟨hlook, hempty⟩
      · exact Or.inl h1
      · right
        refine ⟨?_, hempty⟩
        rcases unregisterWithToken_snd st d' t with hs | hs <;>
          simp only [stepOp, hs] at hlook
        · exact hlook
        · exact alookup_aerase_some d' d st.entries e' hlook

theorem traceMinted_tokens (ops : List RegOp) (st : SessionsState)
    (hbound : st.nextToken + countRegisters ops ≤ 18446744073709551616) :
    (traceMinted st ops).map Prod.snd =
      List.range' st.nextToken (countRegisters ops) := by
  induction ops generalizing st with
  | nil => rfl
  | cons op rest ih =>
    cases op with
    | register d now =>
      have hcount : countRegisters (RegOp.register d now :: rest) =
          countRegisters rest + 1 := rfl
      rw [hcount] at hbound ⊢
      have hlt : st.nextToken < 18446744073709551616 := by omega
      have hb' : (stepOp st (.register d now)).nextToken +
          countRegisters rest ≤ 18446744073709551616 := by
        simp only [stepOp, SessionsState.register]
        omega
      rw [traceMinted, List.map_cons, List.range'_succ]
      have hih := ih (stepOp st (.register d now)) hb'
      have hnt : (stepOp st (.register d now)).nextToken = st.nextToken + 1 := rfl
      rw [hnt] at hih
      rw [hih]
      simp [SessionsState.register, Nat.mod_eq_of_lt hlt]
    | unregisterTok d t =>
      have hnt : (stepOp st (.unregisterTok d t)).nextToken = st.nextToken := by
        rcases unregisterWithToken_snd st d t with hs | hs <;>
          simp only [stepOp, hs]
      have hb' : (stepOp st (.unregisterTok d t)).nextToken +
          countRegisters rest ≤ 18446744073709551616 := by
        rw [hnt]
        exact hbound
      rw [traceMinted]
      have := ih (stepOp st (.unregisterTok d t)) hb'
      rw [hnt] at this
      exact this

/-- Claim C10: across every sequence of register / unregister
operations on one SessionManager with at most `2 ^ 64` registrations
(the u64 counter does not wrap within such a run), the session tokens
returned by successive `register` calls are strictly increasing in call
order and therefore globally unique — two registrations never receive
the same token, even for different device ids. -/
theorem register_tokens_strictly_increasing (ops : List RegOp)
    (hbound : countRegisters ops ≤ 18446744073709551616) :
    ((traceMinted initState ops).map Prod.snd).Pairwise (· < ·) ∧
    ((traceMinted initState ops).map Prod.snd).Nodup := by
  have h := traceMinted_tokens ops initState (by simpa [initState] using hbound)
  rw [h]
  constructor
  · exact List.pairwise_lt_range' _ _
  · exact List.nodup_range' _ _

/-- Witness for claim C10 on a concrete four-operation run over two
device ids. -/
theorem register_tokens_strictly_increasing_witness :
    ((traceMinted initState
        [RegOp.register "a" 0, RegOp.register "b" 1,
         RegOp.unregisterTok "a" 0, RegOp.register "a" 2]).map
      Prod.snd).Pairwise (· < ·) ∧
    ((traceMinted initState
        [RegOp.register "a" 0, RegOp.register "b" 1,
         RegOp.unregisterTok "a" 0, RegOp.register "a" 2]).map
      Prod.snd).Nodup :=
  register_tokens_strictly_increasing
    [RegOp.register "a" 0, RegOp.register "b" 1,
     RegOp.unregisterTok "a" 0, RegOp.register "a" 2] (by decide)

/-- Claim C1 (registry invariant P1): for every sequence of
`register(d)` / `unregister_with_token(d, t)` operations (at most
`2 ^ 64` registrations), the registry holds at most one entry per
device id; the token stored in a device's entry is the maximum token
ever minted for that device; and the registry's token for a device
never decreases over the run. -/
theorem registry_invariant (ops : List RegOp)
    (hbound : countRegisters ops ≤ 18446744073709551616) :
    ((runOps initState ops).entries.map Prod.fst).Nodup ∧
    (∀ d e, alookup d (runOps initState ops).entries = some e →
      e.token ∈ mintedFor d ops ∧ ∀ t ∈ mintedFor d ops, t ≤ e.token) ∧
    (∀ l1 l2 l3 d e1 e2, ops = l1 ++ l2 ++ l3 →
      alookup d (runOps initState l1).entries = some e1 →
      alookup d (runOps initState (l1 ++ l2)).entries = some e2 →
      e1.token ≤ e2.token) := by
  have hbound0 : initState.nextToken + countRegisters ops ≤
      18446744073709551616 := by
    simpa [initState] using hbound
  refine ⟨?_, ?_, ?_⟩
  · exact nodup_keys_run ops initState (by simp [initState])
  · intro d e hf
    rcases run_entry_token_max ops initState hbound0 d e hf with h | ⟨hlook, -⟩
    · exact h
    · simp [initState, alookup] at hlook
  · intro l1 l2 l3 d e1 e2 hsplit h1 h2
    have hc1 : countRegisters l1 + countRegisters l2 ≤ 18446744073709551616 := by
      subst hsplit
      rw [countRegisters_append, countRegisters_append] at hbound
      omega
    have htok1 : e1.token < (runOps initState l1).nextToken :=
      tokLT_run l1 initState
        (by intro d' e' h'; simp [initState, alookup] at h') d e1 h1
    rw [runOps_append] at h2
    have hb2 : (runOps initState l1).nextToken + countRegisters l2 ≤
        18446744073709551616 := by
      rw [nextToken_runOps]
      simpa [initState] using hc1
    rcases run_entry_token_ge l2 (runOps initState l1) hb2 d e2 h2 with h | h
    · rw [h1] at h
      injection h with h'
      exact le_of_eq (congrArg SessionEntry.token h')
    · omega

/-- Witness for claim C1 on a concrete four-operation run featuring a
takeover and a stale unregister. -/
theorem registry_invariant_witness :
    ((runOps initState
        [RegOp.register "a" 0, RegOp.register "a" 1,
         RegOp.unregisterTok "a" 0, RegOp.register "b" 2]).entries.map
      Prod.fst).Nodup ∧
    (∀ d e, alookup d (runOps initState
        [RegOp.register "a" 0, RegOp.register "a" 1,
         RegOp.unregisterTok "a" 0, RegOp.register "b" 2]).entries = some e →
      e.token ∈ mintedFor d
          [RegOp.register "a" 0, RegOp.register "a" 1,
           RegOp.unregisterTok "a" 0, RegOp.register "b" 2] ∧
      ∀ t ∈ mintedFor d
          [RegOp.register "a" 0, RegOp.register "a" 1,
           RegOp.unregisterTok "a" 0, RegOp.register "b" 2], t ≤ e.token) ∧
    (∀ l1 l2 l3 d e1 e2,
      [RegOp.register "a" 0, RegOp.register "a" 1,
       RegOp.unregisterTok "a" 0, RegOp.register "b" 2] = l1 ++ l2 ++ l3 →
      alookup d (runOps initState l1).entries = some e1 →
      alookup d (runOps initState (l1 ++ l2)).entries = some e2 →
      e1.token ≤ e2.token) :=
  registry_invariant
    [RegOp.register "a" 0, RegOp.register "a" 1,
     RegOp.unregisterTok "a" 0, RegOp.register "b" 2] (by decide)

end Hypo
